import Mathlib

/-!
Shallow embedding of the `canhta/til` repository: the slicing example
program `go/main.go` and the tutorial snippets of `go/basic_syntax.md`
(closures, generic linked list, error handling) and `go/concurrency.md`
(worker pool).  Go fallibility (slice-bounds panics, nil dereference) is
modelled with `Option`; machine integers are modelled with `Int` (no
overflow is reachable in these snippets).
-/

namespace TIL

/-! ### Go slice expressions and `fmt.Println` on a string slice -/

/-- Go slice expression `s[low:high]` on a slice whose capacity equals its
length: in bounds iff `low ≤ high ≤ len(s)`; out of bounds panics (`none`). -/
def goSlice (s : List String) (low high : Nat) : Option (List String) :=
  if low ≤ high ∧ high ≤ s.length then some ((s.drop low).take (high - low))
  else none

/-- `fmt.Println` rendering of a `[]string` value: elements separated by
single spaces, wrapped in brackets. -/
def fmtSlice (xs : List String) : String :=
  "[" ++ String.intercalate " " xs ++ "]"

/-- The slice literal `s := []string{"a", "b", "c", "d", "e", "f"}` of
`go/main.go`. -/
def sInit : List String := ["a", "b", "c", "d", "e", "f"]

/-- The body of `main` in `go/main.go`: evaluates `s[2:5]`, `s[:5]` (low
defaults to 0) and `s[2:]` (high defaults to `len(s)`) and prints each.
`main` reads neither its environment nor stdin, so `runMain` ignores both
parameters; `none` models a slice-bounds panic. -/
def runMain (_env _stdin : List String) : Option (List String) :=
  match goSlice sInit 2 5 with
  | none => none
  | some l1 =>
    match goSlice sInit 0 5 with
    | none => none
    | some l2 =>
      match goSlice sInit 2 sInit.length with
      | none => none
      | some l3 => some [fmtSlice l1, fmtSlice l2, fmtSlice l3]

/-! ### Error handling (`go/basic_syntax.md`, `f1`, `f2`, `argError`) -/

/-- `f1` from the errors section: `-1` and the error
`"can't work with 42"` on input 42, otherwise `arg + 3` and no error. -/
def f1 (arg : Int) : Int × Option String :=
  if arg = 42 then (-1, some "can't work with 42") else (arg + 3, none)

/-- Custom error type `argError` with fields `arg` and `prob`. -/
structure argError where
  arg : Int
  prob : String
  deriving DecidableEq, Repr

/-- The `Error()` method of `*argError`:
`fmt.Sprintf("%d - %s", e.arg, e.prob)`. -/
def argError.Error (e : argError) : String :=
  toString e.arg ++ " - " ++ e.prob

/-- `f2` from the errors section: on 42 it returns `-1` and
`&argError{arg, "can't work with it"}`, otherwise `arg + 3` and no error. -/
def f2 (arg : Int) : Int × Option argError :=
  if arg = 42 then (-1, some ⟨arg, "can't work with it"⟩)
  else (arg + 3, none)

/-! ### Worker pool (`go/concurrency.md`): the main goroutine's operations
on the `jobs` channel -/

/-- An operation performed on the `jobs` channel by its sending side. -/
inductive JobsEvent where
  | send : Int → JobsEvent
  | close : JobsEvent
  deriving DecidableEq, Repr

/-- Whether an event is a send. -/
def JobsEvent.isSend : JobsEvent → Bool
  | .send _ => true
  | .close => false

/-- The sequence of operations `main` performs on `jobs` in the worker-pool
example: `for i := 1; i <= 5; i++ { jobs <- i }` followed by `close(jobs)`.
Workers only receive from `jobs`, so this is the channel's entire
send/close history. -/
def mainJobsTrace : List JobsEvent :=
  (List.range' 1 5).map (fun n => JobsEvent.send n) ++ [JobsEvent.close]

/-! ### Generic singly-linked list (`go/basic_syntax.md`, `List[T]`)

Pointers are modelled by addresses into an allocation store: `element[T]`
values live in `store`, a pointer is `some addr` and `nil` is `none`.
Allocation (`&element[T]{...}`) appends at address `store.length`. -/

/-- `element[T]`: one node, with a pointer to the next node and a value. -/
structure element (T : Type) where
  next : Option Nat
  val : T
  deriving Repr

/-- `List[T]`: head and tail pointers, plus the store the pointers index. -/
structure GoList (T : Type) where
  store : List (element T)
  head : Option Nat
  tail : Option Nat

/-- The zero value `List[T]{}`: both pointers nil, nothing allocated. -/
def GoList.empty (T : Type) : GoList T := ⟨[], none, none⟩

/-- `Push`: if `lst.tail == nil`, allocate the node and point both `head`
and `tail` at it; otherwise set `lst.tail.next` to a freshly allocated node
and advance `tail`.  Dereferencing a dangling tail pointer (impossible for
lists built by `Push`) leaves the list unchanged. -/
def GoList.Push (lst : GoList T) (v : T) : GoList T :=
  match lst.tail with
  | none =>
      let addr := lst.store.length
      ⟨lst.store ++ [⟨none, v⟩], some addr, some addr⟩
  | some t =>
      let addr := lst.store.length
      match lst.store[t]? with
      | none => lst
      | some e =>
          ⟨lst.store.set t ⟨some addr, e.val⟩ ++ [⟨none, v⟩],
           lst.head, some addr⟩

/-- The loop of `GetAll`: follow `next` pointers from `cur`, collecting
values; fuel bounds the walk (a cycle or dangling pointer stops it). -/
def getAllAux (store : List (element T)) : Nat → Option Nat → List T
  | _, none => []
  | 0, some _ => []
  | fuel + 1, some a =>
      match store[a]? with
      | none => []
      | some e => e.val :: getAllAux store fuel e.next

/-- `GetAll`: walk from `head` to `nil`, returning the values in order.
A `Push`-built list has at most `store.length` reachable nodes, so that is
fuel enough. -/
def GoList.GetAll (lst : GoList T) : List T :=
  getAllAux lst.store lst.store.length lst.head

/-- Pushing a sequence of values in order, starting from `lst`. -/
def GoList.pushAll (lst : GoList T) (vs : List T) : GoList T :=
  vs.foldl GoList.Push lst

/-- The store of a list built by pushing `vs` onto the empty list: node `i`
holds `vs[i]` and points at node `i + 1`, the last node at `nil`. -/
def chainStore (vs : List T) : List (element T) :=
  List.ofFn (fun i : Fin vs.length =>
    ⟨if (i : Nat) + 1 = vs.length then none else some ((i : Nat) + 1),
     vs.get i⟩)

/-- The state reached from `List[T]{}` by pushing `vs`: a chain store with
`head` at node 0 and `tail` at the last node. -/
def chainInv (lst : GoList T) (vs : List T) : Prop :=
  lst.store = chainStore vs ∧
  lst.head = (if vs.length = 0 then none else some 0) ∧
  lst.tail = (if vs.length = 0 then none else some (vs.length - 1))

/-! ### Closures (`go/basic_syntax.md`, `intSeq`)

Each call to `intSeq` allocates a fresh captured variable `i := 0`; the
world is the list of captured counters, a closure is the address of its
counter. -/

/-- `intSeq()`: allocate `i := 0` and return the closure (the address of
its captured counter). -/
def intSeq (w : List Nat) : List Nat × Nat := (w ++ [0], w.length)

/-- Calling a closure returned by `intSeq`: `i++; return i` on the
closure's own counter.  Calling a closure whose counter was never
allocated (impossible for closures returned by `intSeq`) is a no-op. -/
def nextIntCall (w : List Nat) (c : Nat) : List Nat × Option Nat :=
  match w[c]? with
  | none => (w, none)
  | some i => (w.set c (i + 1), some (i + 1))

/-- The world after calling closure `c` a total of `n` times. -/
def stateAfter : Nat → List Nat → Nat → List Nat
  | 0, w, _ => w
  | n + 1, w, c => (nextIntCall (stateAfter n w c) c).1

/-! ## Helper lemmas -/

theorem chainStore_length (vs : List T) :
    (chainStore vs).length = vs.length := by
  simp [chainStore]

theorem chainStore_getElem (vs : List T) (i : Nat)
    (h : i < vs.length) (h2 : i < (chainStore vs).length) :
    (chainStore vs)[i] =
      ⟨if i + 1 = vs.length then none else some (i + 1), vs[i]⟩ := by
  simp [chainStore]

theorem chainStore_nil (T : Type) : chainStore ([] : List T) = [] := by
  simp [chainStore]

theorem chainStore_one (v : T) :
    chainStore [v] = [⟨none, v⟩] := by
  simp [chainStore, List.ofFn_succ]

theorem chainInv_empty (T : Type) : chainInv (GoList.empty T) [] := by
  refine ⟨?_, rfl, rfl⟩
  simp [GoList.empty, chainStore]

theorem chainStore_snoc (vs : List T) (v : T) (hpos : 0 < vs.length) :
    (chainStore vs).set (vs.length - 1)
        ⟨some vs.length, vs.get ⟨vs.length - 1, by omega⟩⟩ ++ [⟨none, v⟩]
      = chainStore (vs ++ [v]) := by
  apply List.ext_getElem
  · simp [chainStore_length]
  · intro i h1 h2
    have hi : i < vs.length + 1 := by
      simpa [chainStore_length] using h1
    have hvl : i < (vs ++ [v]).length := by simpa using hi
    rw [chainStore_getElem (vs ++ [v]) i hvl h2]
    rcases Nat.lt_or_ge i vs.length with hilt | hige
    · have hset : i < ((chainStore vs).set (vs.length - 1)
          ⟨some vs.length, vs.get ⟨vs.length - 1, by omega⟩⟩).length := by
        simpa [chainStore_length] using hilt
      rw [List.getElem_append_left hset]
      have hvapp : (vs ++ [v])[i] = vs[i] :=
        List.getElem_append_left hilt
      rcases eq_or_ne i (vs.length - 1) with heq | hne2
      · subst heq
        rw [List.getElem_set_self hset]
        rw [if_neg (by simp only [List.length_append, List.length_singleton]; omega)]
        rw [hvapp]
        congr 2
        omega
      · rw [List.getElem_set_ne (fun hq => hne2 hq.symm) hset]
        rw [chainStore_getElem vs i hilt (by rwa [chainStore_length])]
        rw [if_neg (by omega),
            if_neg (by simp only [List.length_append, List.length_singleton]; omega)]
        rw [hvapp]
    · have hieq : i = vs.length := by omega
      subst hieq
      have hsetlen : ((chainStore vs).set (vs.length - 1)
          ⟨some vs.length, vs.get ⟨vs.length - 1, by omega⟩⟩).length = vs.length := by
        simp [chainStore_length]
      have hv : (vs ++ [v])[vs.length] = v := by
        rw [List.getElem_append_right (le_refl _)]
        simp
      rw [List.getElem_append_right (by omega), if_pos (by simp)]
      simp only [hsetlen, Nat.sub_self, List.getElem_cons_zero]
      exact (congrArg (fun x => ({ next := none, val := x } : element T)) hv).symm

theorem chainInv_push {lst : GoList T} {vs : List T} (v : T)
    (h : chainInv lst vs) : chainInv (lst.Push v) (vs ++ [v]) := by
  obtain ⟨store, hd, tl⟩ := lst
  obtain ⟨hs, hh, ht⟩ := h
  simp only at hs hh ht
  subst hs hh ht
  rcases Nat.eq_zero_or_pos vs.length with hz | hpos
  · have hvs : vs = [] := List.length_eq_zero.mp hz
    subst hvs
    refine ⟨?_, ?_, ?_⟩ <;>
      simp [GoList.Push, chainStore_nil, chainStore_one]
  · have hn : vs.length ≠ 0 := by omega
    simp only [if_neg hn]
    have hlt : vs.length - 1 < (chainStore vs).length := by
      rw [chainStore_length]; omega
    have hlast : (chainStore vs)[vs.length - 1]? =
        some ⟨none, vs.get ⟨vs.length - 1, by omega⟩⟩ := by
      rw [List.getElem?_eq_getElem hlt,
          chainStore_getElem vs _ (by omega) hlt]
      simp only [Option.some_inj]
      rw [if_pos (by omega)]
      rfl
    have hpush : GoList.Push ⟨chainStore vs, some 0, some (vs.length - 1)⟩ v =
        ⟨(chainStore vs).set (vs.length - 1)
            ⟨some vs.length, vs.get ⟨vs.length - 1, by omega⟩⟩ ++ [⟨none, v⟩],
         some 0, some vs.length⟩ := by
      simp only [GoList.Push, hlast, chainStore_length]
    rw [hpush]
    refine ⟨?_, ?_, ?_⟩
    · exact chainStore_snoc vs v hpos
    · rw [if_neg (by simp)]
    · rw [if_neg (by simp)]
      simp

theorem chainInv_pushAll (rest : List T) :
    ∀ (lst : GoList T) (p : List T), chainInv lst p →
      chainInv (lst.pushAll rest) (p ++ rest) := by
  induction rest with
  | nil => intro lst p h; simpa [GoList.pushAll] using h
  | cons r rs ih =>
      intro lst p h
      have h2 := ih (lst.Push r) (p ++ [r]) (chainInv_push r h)
      simpa [GoList.pushAll, List.append_assoc] using h2

theorem getAllAux_chain (vs : List T) (fuel : Nat) :
    ∀ i : Nat, vs.length ≤ i + fuel →
      getAllAux (chainStore vs) fuel (some i) = vs.drop i := by
  induction fuel with
  | zero =>
      intro i h
      rw [List.drop_eq_nil_of_le (by omega)]
      rfl
  | succ fuel ih =>
      intro i h
      rcases Nat.lt_or_ge i vs.length with hi | hi
      · have hcs : i < (chainStore vs).length := by
          rw [chainStore_length]; exact hi
        have hget : (chainStore vs)[i]? =
            some ⟨if i + 1 = vs.length then none else some (i + 1), vs[i]⟩ := by
          rw [List.getElem?_eq_getElem hcs, chainStore_getElem vs i hi hcs]
        rcases eq_or_ne (i + 1) vs.length with he | hne
        · have hget2 : (chainStore vs)[i]? = some ⟨none, vs[i]⟩ := by
            rw [hget, if_pos he]
          have hnone : getAllAux (chainStore vs) fuel none = [] := by
            cases fuel <;> rfl
          simp only [getAllAux, hget2, hnone]
          rw [List.drop_eq_getElem_cons hi, he, List.drop_length]
        · have hget2 : (chainStore vs)[i]? = some ⟨some (i + 1), vs[i]⟩ := by
            rw [hget, if_neg hne]
          simp only [getAllAux, hget2]
          rw [ih (i + 1) (by omega), List.drop_eq_getElem_cons hi]
      · have hget : (chainStore vs)[i]? = none := by
          apply List.getElem?_eq_none
          rw [chainStore_length]; exact hi
        rw [getAllAux, hget, List.drop_eq_nil_of_le (by omega)]

theorem nextIntCall_stateAfter_get (w : List Nat) (c : Nat) (i : Nat)
    (h : w[c]? = some i) :
    ∀ n, (stateAfter n w c)[c]? = some (i + n) := by
  intro n
  induction n with
  | zero => simpa using h
  | succ n ih =>
      have hlt : c < (stateAfter n w c).length := by
        have := List.getElem?_eq_some.mp ih
        exact this.1
      simp only [stateAfter, nextIntCall, ih]
      rw [List.getElem?_set_eq_of_lt _ hlt]
      congr 1

theorem nextIntCall_stateAfter_other (w : List Nat) (c c' : Nat) (hne : c ≠ c') :
    ∀ n, (stateAfter n w c)[c']? = w[c']? := by
  intro n
  induction n with
  | zero => rfl
  | succ n ih =>
      simp only [stateAfter, nextIntCall]
      cases hg : (stateAfter n w c)[c]? with
      | none => simpa using ih
      | some i => simpa [List.getElem?_set_ne hne] using ih

/-! ## Theorems -/

/-- C1: `main` takes no input and reads no configuration, and its console
output is the fixed three-line sequence `[c d e]`, `[a b c d e]`,
`[c d e f]`; any two runs (under any environments and stdin contents)
produce identical output. -/
theorem main_output_constant :
    ∀ env1 stdin1 env2 stdin2 : List String,
      runMain env1 stdin1 = runMain env2 stdin2 ∧
      runMain env1 stdin1 = some ["[c d e]", "[a b c d e]", "[c d e f]"] :=
  fun _ _ _ _ => ⟨rfl, rfl⟩

/-- C2: with `s = ["a","b","c","d","e","f"]`, the slice `s[2:5]` is
`["c","d","e"]` and the first line printed by `main` is `[c d e]`. -/
theorem main_first_line (env stdin : List String) :
    goSlice sInit 2 5 = some ["c", "d", "e"] ∧
    (runMain env stdin).bind List.head? = some "[c d e]" :=
  ⟨rfl, rfl⟩

/-- C3: with `s = ["a","b","c","d","e","f"]`, the slice `s[:5]` (low bound
defaulting to 0) is `["a","b","c","d","e"]` and the second line printed by
`main` is `[a b c d e]`. -/
theorem main_second_line (env stdin : List String) :
    goSlice sInit 0 5 = some ["a", "b", "c", "d", "e"] ∧
    (runMain env stdin).bind (fun out => out[1]?) = some "[a b c d e]" :=
  ⟨rfl, rfl⟩

/-- C4: with `s = ["a","b","c","d","e","f"]`, the slice `s[2:]` (high bound
defaulting to `len(s)`) is `["c","d","e","f"]` and the third line printed
by `main` is `[c d e f]`. -/
theorem main_third_line (env stdin : List String) :
    goSlice sInit 2 sInit.length = some ["c", "d", "e", "f"] ∧
    (runMain env stdin).bind (fun out => out[2]?) = some "[c d e f]" :=
  ⟨rfl, rfl⟩

/-- C8: every slice expression in `main` is within bounds — each pair of
bounds (2,5), (0,5), (2,6) satisfies `0 ≤ low ≤ high ≤ len(s)` for the
length-6 slice `s` — so every slice evaluates without panicking and `main`
cannot panic on any run. -/
theorem main_slices_in_bounds (env stdin : List String) :
    (0 ≤ 2 ∧ 2 ≤ 5 ∧ 5 ≤ sInit.length) ∧
    (0 ≤ 0 ∧ 0 ≤ 5 ∧ 5 ≤ sInit.length) ∧
    (0 ≤ 2 ∧ 2 ≤ sInit.length ∧ sInit.length ≤ sInit.length) ∧
    (goSlice sInit 2 5).isSome = true ∧
    (goSlice sInit 0 5).isSome = true ∧
    (goSlice sInit 2 sInit.length).isSome = true ∧
    (runMain env stdin).isSome = true :=
  ⟨by decide, by decide, by decide, rfl, rfl, rfl, rfl⟩

/-- C5: `f1` returns a non-nil error exactly on input 42, where the result
is `-1` and the message is `"can't work with 42"`; on any other input it
returns `arg + 3` with no error. -/
theorem f1_spec (arg : Int) :
    ((f1 arg).2.isSome = true ↔ arg = 42) ∧
    (arg = 42 → f1 arg = (-1, some "can't work with 42")) ∧
    (arg ≠ 42 → f1 arg = (arg + 3, none)) := by
  unfold f1
  by_cases h : arg = 42
  · subst h; simp
  · simp [h]

/-- Witness for C5: `f1` at the tutorial's own inputs 42 and 7. -/
theorem f1_spec_witness :
    f1 42 = (-1, some "can't work with 42") ∧ f1 7 = (7 + 3, none) :=
  ⟨(f1_spec 42).2.1 rfl, (f1_spec 7).2.2 (by decide)⟩

/-- C6: `f2` returns a non-nil error exactly on input 42; that error is an
`argError` with `arg = 42` and `prob = "can't work with it"`, whose
`Error()` renders as `"42 - can't work with it"`; on any other input `f2`
returns `arg + 3` with no error. -/
theorem f2_spec (arg : Int) :
    ((f2 arg).2.isSome = true ↔ arg = 42) ∧
    (arg = 42 → f2 arg = (-1, some ⟨42, "can't work with it"⟩)) ∧
    (∀ e, (f2 arg).2 = some e →
      e.arg = 42 ∧ e.prob = "can't work with it" ∧
      argError.Error e = "42 - can't work with it") ∧
    (arg ≠ 42 → f2 arg = (arg + 3, none)) := by
  unfold f2
  by_cases h : arg = 42
  · subst h
    refine ⟨by simp, fun _ => by simp, ?_, fun hne => absurd rfl hne⟩
    intro e he
    simp at he
    subst he
    exact ⟨rfl, rfl, rfl⟩
  · refine ⟨by simp [h], fun h42 => absurd h42 h, ?_, fun _ => by simp [h]⟩
    intro e he
    simp [h] at he

/-- Witness for C6: `f2` at the tutorial's own input 42 and at 7. -/
theorem f2_spec_witness :
    f2 42 = (-1, some ⟨42, "can't work with it"⟩) ∧
    argError.Error ⟨42, "can't work with it"⟩ = "42 - can't work with it" ∧
    f2 7 = (7 + 3, none) :=
  ⟨(f2_spec 42).2.1 rfl,
   ((f2_spec 42).2.2.1 ⟨42, "can't work with it"⟩ rfl).2.2,
   (f2_spec 7).2.2.2 (by decide)⟩

/-- C7: in the worker-pool example's `main`, the operations on the `jobs`
channel are exactly five sends (values 1..5) followed by one close, and
every send occurs strictly before the close — no send on `jobs` ever
follows `close(jobs)`, so a send-after-close panic is unreachable. -/
theorem no_send_after_close :
    mainJobsTrace =
      [JobsEvent.send 1, JobsEvent.send 2, JobsEvent.send 3,
       JobsEvent.send 4, JobsEvent.send 5, JobsEvent.close] ∧
    ∀ i j : Fin mainJobsTrace.length,
      mainJobsTrace.get i = JobsEvent.close →
      (mainJobsTrace.get j).isSend = true → j < i :=
  ⟨by decide, by decide⟩

/-- Witness for C7: the close at index 5 and the send at index 0 satisfy
the ordering. -/
theorem no_send_after_close_witness :
    mainJobsTrace.get ⟨5, by decide⟩ = JobsEvent.close ∧
    (mainJobsTrace.get ⟨0, by decide⟩).isSend = true ∧
    (⟨0, by decide⟩ : Fin mainJobsTrace.length) < ⟨5, by decide⟩ :=
  ⟨by decide, by decide,
   no_send_after_close.2 ⟨5, by decide⟩ ⟨0, by decide⟩ (by decide) (by decide)⟩

/-- Claim C9: for every type `T` and every sequence of values pushed via
`Push`, in order, onto an initially empty `List[T]`, `GetAll` returns
exactly that sequence in push order; in particular `GetAll` on the empty
list returns the empty result. -/
theorem pushAll_GetAll (T : Type) (vs : List T) :
    ((GoList.empty T).pushAll vs).GetAll = vs ∧ (GoList.empty T).GetAll = [] := by
  constructor
  · have hinv := chainInv_pushAll vs (GoList.empty T) [] (chainInv_empty T)
    obtain ⟨hs, hh, ht⟩ := hinv
    simp only [List.nil_append] at hs hh ht
    unfold GoList.GetAll
    rw [hs, hh, chainStore_length]
    rcases Nat.eq_zero_or_pos vs.length with hz | hpos
    · rw [if_pos hz, List.length_eq_zero.mp hz]
      rfl
    · rw [if_neg (by omega)]
      have := getAllAux_chain vs vs.length 0 (by omega)
      rw [this, List.drop_zero]
  · rfl

/-- Claim C10: a closure returned by `intSeq` starts with captured counter
0, its `(n+1)`-st call returns `n + 1` (so the n-th call, counting from 1,
returns n), distinct `intSeq` calls return distinct closures, and calling
one closure any number of times neither changes another closure's counter
nor the value the other closure returns next. -/
theorem intSeq_spec (w : List Nat) (n c c' : Nat) :
    ((intSeq w).1)[(intSeq w).2]? = some 0 ∧
    (intSeq (intSeq w).1).2 ≠ (intSeq w).2 ∧
    (w[c]? = some 0 → (nextIntCall (stateAfter n w c) c).2 = some (n + 1)) ∧
    (c ≠ c' →
      (stateAfter n w c)[c']? = w[c']? ∧
      (nextIntCall (stateAfter n w c) c').2 = (nextIntCall w c').2) := by
  refine ⟨?_, ?_, ?_, ?_⟩
  · simp [intSeq]
  · simp [intSeq]
  · intro h0
    have := nextIntCall_stateAfter_get w c 0 h0 n
    simp [nextIntCall, this]
  · intro hne
    have h := nextIntCall_stateAfter_other w c c' hne n
    refine ⟨h, ?_⟩
    simp only [nextIntCall, h]
    cases w[c']? <;> rfl

/-- Witness for C10: in the world `[0]` holding the single fresh closure 0,
the third call to closure 0 returns 3, and two calls to closure 0 leave the
(absent) counter of the distinct index 1 unchanged. -/
theorem intSeq_spec_witness :
    (nextIntCall (stateAfter 2 [0] 0) 0).2 = some (2 + 1) ∧
    (stateAfter 2 [0] 0)[1]? = ([0] : List Nat)[1]? :=
  ⟨(intSeq_spec [0] 2 0 1).2.2.1 rfl,
   ((intSeq_spec [0] 2 0 1).2.2.2 (by decide)).1⟩

end TIL
